import Mathlib

/-!
Verification of the Mimir content-processing pipeline.

This file gives a shallow embedding, in Lean 4, of the core logic of the
Mimir repository (an RSS/feed ingestion and enrichment system) and proves
properties of its specification against that embedding:

* the processor pipeline composer (`src/processors/processor_pipeline.py`),
* the keyword classification stage (`src/processors/keyword_processor.py`)
  together with the text-normalization helper
  (`src/processors/content_cleaner.py`),
* the quality assessment stage
  (`src/processors/quality_assessment_processor.py`),
* the information verification stage
  (`src/processors/information_verification_processor.py`),
* the priority ranking stage
  (`src/processors/priority_ranking_processor.py`),
* the deduplicator and URL cache (`src/processors/deduplicator.py`,
  `src/storages/cache_manager.py`),
* the cost tracker (`src/utils/cost_tracker.py`).

Modelling conventions:

* Python floats are modelled as rationals (`ℚ`); every monetary amount and
  score that appears in the claims is exactly representable, and all the
  comparisons involved agree between binary floating point and `ℚ` at the
  concrete inputs considered.
* Python strings are modelled as `String` / `List Char`; the character
  classes used by the regular expressions of the source (`\w`, `\s`) are
  modelled over ASCII, which covers every input appearing in the claims.
* Publication timestamps enter the stages only through
  `(now - parsed_date).days`; the stage functions are therefore
  parameterized directly by that parsed age in days (`Option Int`), with
  `none` standing for a missing or unparsable `published` field, exactly
  the two cases the stages collapse to their default score.
* Mutable state (the URL cache, the cost ledger) is passed explicitly;
  functions that mutate it return the new state, functions that only read
  it (such as `check_budget`) are pure functions of it.
-/

/-! ## Pipeline composer (`src/processors/processor_pipeline.py`)

`ProcessorPipeline._build_chain` wraps every enabled processor in
`process_with_error_handling`: the processor is applied to the current
value; if it raises, the current value is returned unchanged; if it
returns `None`, a `SkipMarker` wrapping the current entry is returned.
Every processor of this repository begins by reading attributes of its
argument (`entry.title`, `entry.get(...)`, `isinstance` conversion via
`ProcessedEntry.from_collected`), so a processor applied to a `SkipMarker`
raises and the wrapper hands the marker through unchanged.  A stage is
therefore a function from entries to one of three outcomes. -/

/-- Outcome of one processor call on an entry: a result entry, the DROP
signal (Python `None`), or an unexpected exception. -/
inductive StageResult (α : Type) where
  | ok (e : α)
  | drop
  | err
deriving DecidableEq, Repr

/-- A pipeline stage, as seen by the pipeline wrapper. -/
def Stage (α : Type) : Type := α → StageResult α

/-- The value flowing through the chain: either a live entry or a
`SkipMarker` holding the entry that was current when some stage dropped. -/
inductive PipeState (α : Type) where
  | run (e : α)
  | skip (e : α)
deriving DecidableEq, Repr

/-- One wrapped processor call (`process_with_error_handling` composed with
`_process_with_skip`): on a live entry, an `ok` result replaces the entry,
`drop` produces a `SkipMarker` carrying the current entry, and an exception
leaves the entry unchanged; on a `SkipMarker` the processor raises while
reading entry attributes and the wrapper returns the marker unchanged. -/
def stepStage {α : Type} (s : Stage α) : PipeState α → PipeState α
  | .run e =>
    match s e with
    | .ok e' => .run e'
    | .drop => .skip e
    | .err => .run e
  | .skip e => .skip e

/-- `ProcessorPipeline.process`: run the wrapped stages in order, then
translate a surviving `SkipMarker` into `None` (the skip result). -/
def pipelineRun {α : Type} (stages : List (Stage α)) (e : α) : Option α :=
  match stages.foldl (fun st s => stepStage s st) (PipeState.run e) with
  | .run e' => some e'
  | .skip _ => none

/-- A `SkipMarker` survives the rest of the chain untouched. -/
theorem foldl_stepStage_skip {α : Type} (stages : List (Stage α)) (e : α) :
    stages.foldl (fun st s => stepStage s st) (PipeState.skip e) = PipeState.skip e := by
  induction stages with
  | nil => rfl
  | cons s rest ih => simpa [stepStage] using ih

/-- C1. For every pipeline of enabled stages and every entry: (a) if the
stage reached with intermediate entry `e'` raises an unexpected exception,
the pipeline behaves as if that stage were absent — `e'` is passed through
unmodified and the later stages still run on it; (b) if the stage reached
with intermediate entry `e'` returns the DROP signal (`None`), the overall
result is the skip result `none`, regardless of the remaining stages. -/
theorem claimC1 {α : Type} :
    (∀ (pre post : List (Stage α)) (s : Stage α) (e e' : α),
      pre.foldl (fun st t => stepStage t st) (PipeState.run e) = PipeState.run e' →
      s e' = StageResult.err →
      pipelineRun (pre ++ s :: post) e = pipelineRun (pre ++ post) e) ∧
    (∀ (pre post : List (Stage α)) (s : Stage α) (e e' : α),
      pre.foldl (fun st t => stepStage t st) (PipeState.run e) = PipeState.run e' →
      s e' = StageResult.drop →
      pipelineRun (pre ++ s :: post) e = none) := by
  constructor
  · intro pre post s e e' hpre herr
    unfold pipelineRun
    rw [List.foldl_append, List.foldl_append, hpre, List.foldl_cons]
    have hs : stepStage s (PipeState.run e') = PipeState.run e' := by
      simp [stepStage, herr]
    rw [hs]
  · intro pre post s e e' hpre hdrop
    unfold pipelineRun
    rw [List.foldl_append, hpre, List.foldl_cons]
    have hs : stepStage s (PipeState.run e') = PipeState.skip e' := by
      simp [stepStage, hdrop]
    rw [hs, foldl_stepStage_skip]

/-- A concrete instance of C1: with a first stage that increments a
natural-number entry, a middle stage that raises (resp. drops), and a last
stage that doubles, the erroring pipeline equals the pipeline without the
faulty stage, and the dropping pipeline yields `none`. -/
theorem claimC1_witness :
    pipelineRun [fun n => StageResult.ok (n + 1), fun _ => StageResult.err,
      fun n => StageResult.ok (n * 2)] 3 =
      pipelineRun [fun n => StageResult.ok (n + 1), fun n => StageResult.ok (n * 2)] 3 ∧
    pipelineRun [fun n => StageResult.ok (n + 1), fun _ => StageResult.drop,
      fun n => StageResult.ok (n * 2)] 3 = none := by
  constructor
  · exact claimC1.1 [fun n => StageResult.ok (n + 1)] [fun n => StageResult.ok (n * 2)]
      (fun _ => StageResult.err) 3 4 rfl rfl
  · exact claimC1.2 [fun n => StageResult.ok (n + 1)] [fun n => StageResult.ok (n * 2)]
      (fun _ => StageResult.drop) 3 4 rfl rfl

/-! ## Text normalization (`src/processors/content_cleaner.py`)

`normalize_text` lowercases, collapses every run of whitespace to a single
space (`re.sub(r"\s+", " ")`), and strips leading/trailing whitespace.
Character classes are modelled over ASCII. -/

/-- Python's regex class `\s` over ASCII: space, tab, newline, carriage
return, vertical tab, form feed. -/
def isSpaceChar (c : Char) : Bool :=
  c == ' ' || c == '\t' || c == '\n' || c == '\r' || c.toNat == 11 || c.toNat == 12

/-- Python's regex class `\w` over ASCII: letters, digits, underscore. -/
def isWordChar (c : Char) : Bool :=
  c.isAlphanum || c == '_'

/-- Lowercase a character and turn any whitespace character into a plain
space (the combined effect of `text.lower()` and `re.sub(r"\s+", " ")`
on a single character). -/
def toLowerSpace (c : Char) : Char :=
  let d := c.toLower
  if isSpaceChar d then ' ' else d

/-- Collapse adjacent spaces to a single space. -/
def squeezeSpaces : List Char → List Char
  | [] => []
  | [c] => [c]
  | a :: b :: rest =>
    if a == ' ' && b == ' ' then squeezeSpaces (b :: rest)
    else a :: squeezeSpaces (b :: rest)

/-- Remove leading and trailing spaces (`str.strip()` after all whitespace
has been mapped to plain spaces). -/
def stripSpaces (l : List Char) : List Char :=
  ((l.dropWhile (· == ' ')).reverse.dropWhile (· == ' ')).reverse

/-- `normalize_text`: lowercase, collapse whitespace runs to one space,
strip the ends. -/
def normalizeChars (s : List Char) : List Char :=
  stripSpaces (squeezeSpaces (s.map toLowerSpace))

/-- `keyword.lower()`. -/
def lowerChars (s : List Char) : List Char :=
  s.map Char.toLower

/-! ## Word-boundary and substring matching
(`KeywordProcessor._label_topics` / `_guess_priority`)

Topic keywords are matched with the compiled pattern
`\b<escaped keyword>\b` (`re.escape` makes the keyword a literal);
priority keywords are matched with Python's plain `in` substring test.
`\b` asserts that exactly one of the two adjacent positions holds a `\w`
character, the outside of the string counting as non-word. -/

/-- Whether the first list is a prefix of the second. -/
def startsWithL : List Char → List Char → Bool
  | [], _ => true
  | _ :: _, [] => false
  | k :: ks, t :: ts => k == t && startsWithL ks ts

/-- Plain substring test (Python `kw in text`). -/
def containsSub (kw : List Char) : List Char → Bool
  | [] => startsWithL kw []
  | c :: rest => startsWithL kw (c :: rest) || containsSub kw rest

/-- The last character of the list, or the fallback `p` when the list is
empty: the character immediately before the current scan position, given
that `p` was the character before the list. -/
def lastOr : List Char → Option Char → Option Char
  | [], p => p
  | c :: l, _ => lastOr l (some c)

/-- The regex word-boundary test `\b` between two adjacent characters
(`none` = beyond the end of the string, which counts as non-word). -/
def boundaryB (a b : Option Char) : Bool :=
  (a.map isWordChar).getD false != (b.map isWordChar).getD false

/-- Whether `\b kw \b` matches at the current position: `p` is the
character immediately before the position, `t` the rest of the text. -/
def matchHere (kw t : List Char) (p : Option Char) : Bool :=
  startsWithL kw t && boundaryB p t.head? && boundaryB (lastOr kw p) ((t.drop kw.length).head?)

/-- `re.search` for the pattern `\b kw \b`: try every position of `t`,
threading the preceding character through as `p`. -/
def searchWord (kw : List Char) : Option Char → List Char → Bool
  | p, [] => matchHere kw [] p
  | p, c :: rest => matchHere kw (c :: rest) p || searchWord kw (some c) rest

/-- Declarative substring occurrence, following the spec's words. -/
def ContainsSubstring (kw text : List Char) : Prop :=
  ∃ l r, text = l ++ (kw ++ r)

/-- Declarative whole-word occurrence, following the spec's words: the
keyword occurs at a position whose two ends both pass the word-boundary
test. -/
def MatchesWholeWord (kw text : List Char) : Prop :=
  ∃ l r, text = l ++ (kw ++ r) ∧
    boundaryB (lastOr l none) ((kw ++ r).head?) = true ∧
    boundaryB (lastOr kw (lastOr l none)) r.head? = true

theorem startsWithL_iff (kw : List Char) :
    ∀ t, startsWithL kw t = true ↔ ∃ r, t = kw ++ r := by
  induction kw with
  | nil =>
    intro t
    simp [startsWithL]
  | cons k ks ih =>
    intro t
    cases t with
    | nil =>
      simp [startsWithL]
    | cons c rest =>
      simp only [startsWithL, Bool.and_eq_true, beq_iff_eq, ih rest, List.cons_append]
      constructor
      · rintro ⟨rfl, r, rfl⟩
        exact ⟨r, rfl⟩
      · rintro ⟨r, hr⟩
        cases hr
        exact ⟨rfl, r, rfl⟩

theorem containsSub_iff (kw : List Char) :
    ∀ t, containsSub kw t = true ↔ ContainsSubstring kw t := by
  intro t
  induction t with
  | nil =>
    simp only [containsSub, startsWithL_iff, ContainsSubstring]
    constructor
    · rintro ⟨r, hr⟩
      exact ⟨[], r, hr⟩
    · rintro ⟨l, r, hr⟩
      rcases List.append_eq_nil.mp hr.symm with ⟨rfl, h2⟩
      exact ⟨r, h2.symm⟩
  | cons c rest ih =>
    simp only [containsSub, Bool.or_eq_true, startsWithL_iff, ih, ContainsSubstring]
    constructor
    · rintro (⟨r, hr⟩ | ⟨l, r, hr⟩)
      · exact ⟨[], r, hr⟩
      · exact ⟨c :: l, r, by simp [hr]⟩
    · rintro ⟨l, r, hr⟩
      cases l with
      | nil => exact Or.inl ⟨r, by simpa using hr⟩
      | cons x l' =>
        rw [List.cons_append] at hr
        cases hr
        exact Or.inr ⟨l', r, rfl⟩

theorem matchHere_iff (kw t : List Char) (p : Option Char) :
    matchHere kw t p = true ↔
      ∃ r, t = kw ++ r ∧ boundaryB p ((kw ++ r).head?) = true ∧
        boundaryB (lastOr kw p) r.head? = true := by
  unfold matchHere
  simp only [Bool.and_eq_true, startsWithL_iff]
  constructor
  · rintro ⟨⟨⟨r, rfl⟩, h1⟩, h2⟩
    refine ⟨r, rfl, h1, ?_⟩
    rwa [List.drop_left] at h2
  · rintro ⟨r, rfl, h1, h2⟩
    exact ⟨⟨⟨r, rfl⟩, h1⟩, by rwa [List.drop_left]⟩

theorem searchWord_iff (kw : List Char) :
    ∀ (t : List Char) (p : Option Char),
    searchWord kw p t = true ↔
      ∃ l r, t = l ++ (kw ++ r) ∧
        boundaryB (lastOr l p) ((kw ++ r).head?) = true ∧
        boundaryB (lastOr kw (lastOr l p)) r.head? = true := by
  intro t
  induction t with
  | nil =>
    intro p
    rw [show searchWord kw p [] = matchHere kw [] p from rfl, matchHere_iff]
    constructor
    · rintro ⟨r, hr, h1, h2⟩
      exact ⟨[], r, by simpa using hr, by simpa [lastOr] using h1, by simpa [lastOr] using h2⟩
    · rintro ⟨l, r, hr, h1, h2⟩
      have hl : l = [] := by
        cases l with
        | nil => rfl
        | cons x xs => simp at hr
      subst hl
      exact ⟨r, by simpa using hr, by simpa [lastOr] using h1, by simpa [lastOr] using h2⟩
  | cons c rest ih =>
    intro p
    rw [show searchWord kw p (c :: rest) =
      (matchHere kw (c :: rest) p || searchWord kw (some c) rest) from rfl]
    simp only [Bool.or_eq_true, matchHere_iff, ih (some c)]
    constructor
    · rintro (⟨r, hr, h1, h2⟩ | ⟨l, r, hr, h1, h2⟩)
      · exact ⟨[], r, by simpa using hr, by simpa [lastOr] using h1, by simpa [lastOr] using h2⟩
      · exact ⟨c :: l, r, by simp [hr], h1, h2⟩
    · rintro ⟨l, r, hr, h1, h2⟩
      cases l with
      | nil =>
        exact Or.inl ⟨r, by simpa using hr, by simpa [lastOr] using h1,
          by simpa [lastOr] using h2⟩
      | cons x l' =>
        rw [List.cons_append] at hr
        injection hr with hx hrest
        subst hx
        exact Or.inr ⟨l', r, hrest, h1, h2⟩

/-- The executable word search agrees with the declarative whole-word
occurrence predicate. -/
theorem searchWord_matchesWholeWord (kw text : List Char) :
    searchWord kw none text = true ↔ MatchesWholeWord kw text :=
  searchWord_iff kw text none

/-! ## Keyword classification (`src/processors/keyword_processor.py`)

`_label_topics` builds the text `f" {normalize_text(title)}
{normalize_text(summary)} "`, matches every topic keyword with the
word-boundary pattern, accumulates matched topic names in a set, and
returns them sorted; `_guess_priority` normalizes `title + " " + summary`
and does a plain substring test, High level first, then Medium, defaulting
to Low. -/

/-- The padded search text of `_label_topics`. -/
def labelText (title summary : String) : List Char :=
  ' ' :: normalizeChars title.data ++ ' ' :: normalizeChars summary.data ++ [' ']

/-- Whether any keyword of one topic matches the text as a whole word. -/
def topicMatches (kws : List String) (text : List Char) : Bool :=
  kws.any fun k => searchWord (lowerChars k.data) none text

/-- `_label_topics`: the sorted set of topic names with a matching
keyword (Python accumulates a `set` and returns `sorted(...)`; this is
modelled by deduplicating and insertion-sorting the matched names). -/
def labelTopics (topicRules : List (String × List String)) (title summary : String) :
    List String :=
  List.insertionSort (· ≤ ·)
    (((topicRules.filter fun tr => topicMatches tr.2 (labelText title summary)).map
      Prod.fst).dedup)

/-- The search text of `_guess_priority`. -/
def guessText (title summary : String) : List Char :=
  normalizeChars (title ++ " " ++ summary).data

/-- `self.priority_rules.get(level, [])`. -/
def lookupRule (rules : List (String × List String)) (level : String) : List String :=
  ((rules.find? fun r => r.1 == level).map Prod.snd).getD []

/-- Whether any keyword of the level occurs in the text as a substring. -/
def levelHit (rules : List (String × List String)) (level : String) (text : List Char) :
    Bool :=
  (lookupRule rules level).any fun k => containsSub (lowerChars k.data) text

/-- `_guess_priority`: High first, then Medium, default Low. -/
def guessPriority (priorityRules : List (String × List String)) (title summary : String) :
    String :=
  if levelHit priorityRules "High" (guessText title summary) then "High"
  else if levelHit priorityRules "Medium" (guessText title summary) then "Medium"
  else "Low"

theorem topicMatches_iff (kws : List String) (text : List Char) :
    topicMatches kws text = true ↔
      ∃ k ∈ kws, MatchesWholeWord (lowerChars k.data) text := by
  simp only [topicMatches, List.any_eq_true, searchWord_matchesWholeWord]

/-- C4. A topic is returned by keyword topic matching iff one of its
keywords, lowercased, occurs in the padded normalized title+summary text
as a whole word; the returned list is sorted and duplicate-free.  In
particular the keyword "class" does not match the title "Classification"
but does match the title "AI class today". -/
theorem claimC4 :
    (∀ (topicRules : List (String × List String)) (title summary : String),
      (labelTopics topicRules title summary).Sorted (· ≤ ·) ∧
      (labelTopics topicRules title summary).Nodup ∧
      ∀ t, t ∈ labelTopics topicRules title summary ↔
        ∃ kws, (t, kws) ∈ topicRules ∧ ∃ k ∈ kws,
          MatchesWholeWord (lowerChars k.data) (labelText title summary)) ∧
    labelTopics [("T", ["class"])] "Classification" "" = [] ∧
    labelTopics [("T", ["class"])] "AI class today" "" = ["T"] := by
  refine ⟨?_, by decide, by decide⟩
  intro topicRules title summary
  refine ⟨List.sorted_insertionSort _ _,
    ((List.perm_insertionSort _ _).nodup_iff).mpr (List.nodup_dedup _), ?_⟩
  intro t
  rw [labelTopics, (List.perm_insertionSort _ _).mem_iff, List.mem_dedup]
  simp only [List.mem_map, List.mem_filter]
  constructor
  · rintro ⟨⟨t', kws⟩, ⟨hmem, hmatch⟩, rfl⟩
    exact ⟨kws, hmem, (topicMatches_iff kws _).mp hmatch⟩
  · rintro ⟨kws, hmem, hmatch⟩
    exact ⟨(t, kws), ⟨hmem, (topicMatches_iff kws _).mpr hmatch⟩, rfl⟩

/-- C5. Keyword priority matching is substring-based on the normalized
`title + " " + summary` text: the result is "High" iff some High keyword
occurs as a substring, "Medium" iff no High keyword occurs but some Medium
keyword does, and "Low" iff neither occurs.  In particular the entry
titled "Major Release Announcement" with summary "Breaking changes in new
version" and High keywords ["release", "breaking"] gets priority "High",
and — substring, not word-boundary — the keyword "class" on the title
"Classification" also yields "High". -/
theorem claimC5 :
    (∀ (priorityRules : List (String × List String)) (title summary : String),
      (guessPriority priorityRules title summary = "High" ↔
        ∃ k ∈ lookupRule priorityRules "High",
          ContainsSubstring (lowerChars k.data) (guessText title summary)) ∧
      (guessPriority priorityRules title summary = "Medium" ↔
        (¬ ∃ k ∈ lookupRule priorityRules "High",
            ContainsSubstring (lowerChars k.data) (guessText title summary)) ∧
        ∃ k ∈ lookupRule priorityRules "Medium",
          ContainsSubstring (lowerChars k.data) (guessText title summary)) ∧
      (guessPriority priorityRules title summary = "Low" ↔
        (¬ ∃ k ∈ lookupRule priorityRules "High",
            ContainsSubstring (lowerChars k.data) (guessText title summary)) ∧
        ¬ ∃ k ∈ lookupRule priorityRules "Medium",
            ContainsSubstring (lowerChars k.data) (guessText title summary))) ∧
    guessPriority [("High", ["release", "breaking"])] "Major Release Announcement"
      "Breaking changes in new version" = "High" ∧
    guessPriority [("High", ["class"])] "Classification" "" = "High" := by
  refine ⟨?_, by decide, by decide⟩
  intro priorityRules title summary
  have hHigh : levelHit priorityRules "High" (guessText title summary) = true ↔
      ∃ k ∈ lookupRule priorityRules "High",
        ContainsSubstring (lowerChars k.data) (guessText title summary) := by
    simp only [levelHit, List.any_eq_true, containsSub_iff]
  have hMed : levelHit priorityRules "Medium" (guessText title summary) = true ↔
      ∃ k ∈ lookupRule priorityRules "Medium",
        ContainsSubstring (lowerChars k.data) (guessText title summary) := by
    simp only [levelHit, List.any_eq_true, containsSub_iff]
  unfold guessPriority
  by_cases h1 : levelHit priorityRules "High" (guessText title summary) = true
  · rw [if_pos h1]
    refine ⟨by simpa using hHigh.mp h1, ?_, ?_⟩
    · constructor
      · intro h; exact absurd h (by decide)
      · rintro ⟨hn, -⟩; exact absurd (hHigh.mp h1) hn
    · constructor
      · intro h; exact absurd h (by decide)
      · rintro ⟨hn, -⟩; exact absurd (hHigh.mp h1) hn
  · rw [if_neg h1]
    have h1' : ¬ ∃ k ∈ lookupRule priorityRules "High",
        ContainsSubstring (lowerChars k.data) (guessText title summary) := by
      intro hx; exact h1 (hHigh.mpr hx)
    by_cases h2 : levelHit priorityRules "Medium" (guessText title summary) = true
    · rw [if_pos h2]
      refine ⟨?_, ?_, ?_⟩
      · constructor
        · intro h; exact absurd h (by decide)
        · intro hx; exact absurd (hHigh.mpr hx) h1
      · exact ⟨fun _ => ⟨h1', hMed.mp h2⟩, fun _ => rfl⟩
      · constructor
        · intro h; exact absurd h (by decide)
        · rintro ⟨-, hn⟩; exact absurd (hMed.mp h2) hn
    · rw [if_neg h2]
      have h2' : ¬ ∃ k ∈ lookupRule priorityRules "Medium",
          ContainsSubstring (lowerChars k.data) (guessText title summary) := by
        intro hx; exact h2 (hMed.mpr hx)
      refine ⟨?_, ?_, ?_⟩
      · constructor
        · intro h; exact absurd h (by decide)
        · intro hx; exact absurd (hHigh.mpr hx) h1
      · constructor
        · intro h; exact absurd h (by decide)
        · rintro ⟨-, hx⟩; exact absurd (hMed.mpr hx) h2
      · exact ⟨fun _ => ⟨h1', h2'⟩, fun _ => rfl⟩

/-! ## `KeywordProcessor.process` and the arXiv fallback -/

/-- The fields of the raw entry dictionary read by
`KeywordProcessor.process` (`entry.get("title", "")`,
`entry.get("summary", "")`, `entry.get("link", "")`). -/
structure KWEntry where
  title : String
  summary : String
  link : String

/-- The classification rules dictionary: `rules.get("topics", {})` and
`rules.get("priority", {})`. -/
structure KWRules where
  topics : List (String × List String)
  priority : List (String × List String)

/-- The topics assigned by `KeywordProcessor.process`: the matched topics,
or — when no topic matched and the lowercased link contains "arxiv" —
`["RAG"]` if the lowercased `title + summary` contains "retriev", else
`["Agent"]`. -/
def keywordTopics (rules : KWRules) (e : KWEntry) : List String :=
  let topics := labelTopics rules.topics e.title e.summary
  if topics.isEmpty && containsSub "arxiv".data (lowerChars e.link.data) then
    if containsSub "retriev".data (lowerChars (e.title ++ e.summary).data) then ["RAG"]
    else ["Agent"]
  else topics

/-- `KeywordProcessor.process`: the `(topics, priority)` pair written onto
the entry. -/
def keywordProcess (rules : KWRules) (e : KWEntry) : List String × String :=
  (keywordTopics rules e, guessPriority rules.priority e.title e.summary)

/-- Modelled from the spec: the "domain" of an absolute URL
(`urlparse(link).netloc`) — the part strictly between `"://"` and the
next `/`, `?` or `#`.  `KeywordProcessor` itself never computes a domain;
this definition only serves to state the spec's claim, which speaks of
the link's domain. -/
def afterSchemeMark : List Char → List Char
  | [] => []
  | c :: cs => if startsWithL "://".data (c :: cs) then cs.drop 2 else afterSchemeMark cs

/-- Modelled from the spec: the netloc/domain of an absolute URL. -/
def domainOf (url : String) : String :=
  ⟨(afterSchemeMark url.data).takeWhile fun c => !(c == '/' || c == '?' || c == '#')⟩

/-- The claim C6 as stated is false: the code tests `"arxiv" in
link.lower()` on the whole URL, not on its domain.  The entry with link
"https://example.com/arxiv" (domain "example.com", which does not contain
"arxiv") and no topic matches still receives the fallback topics
`["Agent"]`. -/
theorem claimC6_counterexample :
    keywordTopics ⟨[], []⟩
      ⟨"Some page", "no keywords here", "https://example.com/arxiv"⟩ = ["Agent"] ∧
    labelTopics ([] : List (String × List String)) "Some page" "no keywords here" = [] ∧
    domainOf "https://example.com/arxiv" = "example.com" ∧
    containsSub "arxiv".data (lowerChars (domainOf "https://example.com/arxiv").data) =
      false := by
  refine ⟨by decide, by decide, by decide, by decide⟩

/-- C6 (amended). For every entry whose topic matching produced no topics,
the keyword stage assigns fallback topics exactly when the lowercased link
(the whole URL, not just its domain) contains "arxiv": topics become
`["RAG"]` if the lowercased combined title+summary text contains
"retriev", otherwise `["Agent"]`; entries whose lowercased link does not
contain "arxiv" get no fallback topics, and entries with topic matches
keep them unchanged.  The spec's scenario holds: an arxiv.org link with no
topic matches and a summary containing "retrieval" gets `["RAG"]`. -/
theorem claimC6 :
    (∀ (rules : KWRules) (e : KWEntry),
      (labelTopics rules.topics e.title e.summary ≠ [] →
        keywordTopics rules e = labelTopics rules.topics e.title e.summary) ∧
      (labelTopics rules.topics e.title e.summary = [] →
        (ContainsSubstring "arxiv".data (lowerChars e.link.data) →
          keywordTopics rules e =
            (if containsSub "retriev".data (lowerChars (e.title ++ e.summary).data)
             then ["RAG"] else ["Agent"])) ∧
        (¬ ContainsSubstring "arxiv".data (lowerChars e.link.data) →
          keywordTopics rules e = []))) ∧
    keywordTopics ⟨[], []⟩
      ⟨"Some Paper", "Content about retrieval systems",
        "https://arxiv.org/abs/1234.5678"⟩ = ["RAG"] := by
  refine ⟨?_, by decide⟩
  intro rules e
  constructor
  · intro hne
    have hfalse : (labelTopics rules.topics e.title e.summary).isEmpty = false := by
      cases h : labelTopics rules.topics e.title e.summary with
      | nil => exact absurd h hne
      | cons a l => simp [List.isEmpty]
    simp [keywordTopics, hfalse]
  · intro hemp
    have htrue : (labelTopics rules.topics e.title e.summary).isEmpty = true := by
      simp [hemp]
    constructor
    · intro hc
      have hc' : containsSub "arxiv".data (lowerChars e.link.data) = true :=
        (containsSub_iff _ _).mpr hc
      simp [keywordTopics, htrue, hc']
    · intro hnc
      have hc' : containsSub "arxiv".data (lowerChars e.link.data) = false := by
        cases h : containsSub "arxiv".data (lowerChars e.link.data) with
        | false => rfl
        | true => exact absurd ((containsSub_iff _ _).mp h) hnc
      simp [keywordTopics, htrue, hc', hemp]

/-- A concrete instance of C6 exercising both hypotheses: an arXiv link
without "retriev" in the text gets `["Agent"]`, and an entry with a topic
match keeps its matched topics. -/
theorem claimC6_witness :
    keywordTopics ⟨[], []⟩ ⟨"Some Paper", "plain words", "https://arxiv.org/abs/1"⟩ =
      ["Agent"] ∧
    keywordTopics ⟨[("T", ["plain"])], []⟩ ⟨"plain words", "x", "https://example.com/a"⟩ =
      ["T"] := by
  constructor
  · have h := ((claimC6.1 ⟨[], []⟩
      ⟨"Some Paper", "plain words", "https://arxiv.org/abs/1"⟩).2 (by decide)).1
      ((containsSub_iff _ _).mp (by decide))
    exact h.trans (by decide)
  · have h := (claimC6.1 ⟨[("T", ["plain"])], []⟩
      ⟨"plain words", "x", "https://example.com/a"⟩).1 (by decide)
    exact h.trans (by decide)

/-! ## Deduplicator (`src/processors/deduplicator.py`,
`src/storages/cache_manager.py`)

The URL cache (`CacheManager._url_cache`) is an in-memory set of URL
strings, loaded at the start of a run with entries older than the TTL
filtered out; within a run `has_url` and `add_url` operate on the set
directly, so an added URL is visible for the whole run.  The
authoritative store is modelled as an oracle `String → Bool`
(`storage.exists`). -/

/-- `CacheManager.has_url`. -/
def hasUrl (cache : List String) (url : String) : Bool :=
  cache.contains url

/-- `CacheManager.add_url` (set insertion). -/
def addUrl (cache : List String) (url : String) : List String :=
  if cache.contains url then cache else url :: cache

/-- `Deduplicator.is_duplicate`: empty link is never a duplicate; check
the cache first; on a cache miss ask the store and backfill the cache on
a store hit.  Returns the answer and the possibly-updated cache. -/
def isDuplicate (cache : List String) (storeHas : String → Bool) (link : String) :
    Bool × List String :=
  if link = "" then (false, cache)
  else if hasUrl cache link then (true, cache)
  else if storeHas link then (true, addUrl cache link)
  else (false, cache)

/-- `Deduplicator.mark_as_processed`: add a non-empty link to the cache;
the store is not touched. -/
def markAsProcessed (cache : List String) (link : String) : List String :=
  if link = "" then cache else addUrl cache link

/-- C7. For every cache state, every store oracle and every entry with a
(non-empty) link, `is_duplicate` answers `true` immediately after
`mark_as_processed` added that link to the cache — whatever the
authoritative store would answer.  (Within one run the in-memory cache is
consulted directly; the TTL only filters entries when the cache is loaded
at the start of a run, so the answer holds throughout the run.) -/
theorem claimC7 (cache : List String) (storeHas : String → Bool) (link : String)
    (h : link ≠ "") :
    (isDuplicate (markAsProcessed cache link) storeHas link).1 = true := by
  have hmem : (markAsProcessed cache link).contains link = true := by
    unfold markAsProcessed addUrl
    rw [if_neg h]
    by_cases hc : cache.contains link = true
    · rw [if_pos hc]; exact hc
    · rw [if_neg hc]
      simp [List.contains_cons]
  unfold isDuplicate hasUrl
  rw [if_neg h, if_pos hmem]

/-- A concrete instance of C7: an empty cache, a store that knows
nothing, and a real link. -/
theorem claimC7_witness :
    (isDuplicate (markAsProcessed [] "https://example.com/a") (fun _ => false)
      "https://example.com/a").1 = true :=
  claimC7 [] (fun _ => false) "https://example.com/a" (by decide)

/-! ## Cost tracker (`src/utils/cost_tracker.py`)

Costs are rationals; the cost file is an association list from period keys
(dates `YYYY-MM-DD`, months `YYYY-MM`) to accumulated spend records.
`check_budget` only reads the ledger (the Python method performs no
assignment and no save), so it is a pure function of the tracker returning
either `ok` or the raised `BudgetExceededError`; `record_call` returns the
updated tracker.  The keys for "today", "this month" and the 90-day
cleanup cutoff are parameters (they come from `datetime.now()`). -/

/-- Python string `<` on period keys: lexicographic by code point. -/
def lexLtB : List Char → List Char → Bool
  | [], [] => false
  | [], _ :: _ => true
  | _ :: _, [] => false
  | a :: as, b :: bs =>
    if a < b then true else if b < a then false else lexLtB as bs

/-- One `models[model]` record of a per-day entry. -/
structure ModelSpend where
  cost : ℚ
  tokens : ℕ
  calls : ℕ

/-- One per-day or per-month record of the cost file.  A Python month
entry has no `"models"` key; that is modelled by an empty `models` list,
which `record_call` never touches for month keys. -/
structure PeriodSpend where
  cost : ℚ
  tokens : ℕ
  calls : ℕ
  models : List (String × ModelSpend)

/-- The in-memory state of `CostTracker`. -/
structure CostTracker where
  daily_limit : ℚ
  monthly_budget : ℚ
  cost_data : List (String × PeriodSpend)

/-- Dictionary lookup `self._cost_data.get(key)`. -/
def lookupPeriod (data : List (String × PeriodSpend)) (key : String) :
    Option PeriodSpend :=
  (data.find? fun kv => kv.1 == key).map Prod.snd

/-- Dictionary assignment `self._cost_data[key] = v`. -/
def setPeriod : List (String × PeriodSpend) → String → PeriodSpend →
    List (String × PeriodSpend)
  | [], key, v => [(key, v)]
  | kv :: rest, key, v =>
    if kv.1 == key then (key, v) :: rest else kv :: setPeriod rest key v

/-- Dictionary assignment on the per-model sub-map. -/
def setModel : List (String × ModelSpend) → String → ModelSpend →
    List (String × ModelSpend)
  | [], key, v => [(key, v)]
  | kv :: rest, key, v =>
    if kv.1 == key then (key, v) :: rest else kv :: setModel rest key v

/-- A fresh `{"cost": 0.0, "tokens": 0, "calls": 0, ...}` entry. -/
def emptyPeriod : PeriodSpend := ⟨0, 0, 0, []⟩

/-- `CostTracker.get_daily_cost` for a given date key. -/
def getDailyCost (t : CostTracker) (dateKey : String) : ℚ :=
  ((lookupPeriod t.cost_data dateKey).map PeriodSpend.cost).getD 0

/-- `CostTracker.get_monthly_cost` for a given month key. -/
def getMonthlyCost (t : CostTracker) (monthKey : String) : ℚ :=
  ((lookupPeriod t.cost_data monthKey).map PeriodSpend.cost).getD 0

/-- `CostTracker.check_budget`: `error` is the raised
`BudgetExceededError`, `ok true` the normal return.  The Python method
reads the ledger and mutates nothing. -/
def checkBudget (t : CostTracker) (dateKey monthKey : String) (estimated : ℚ) :
    Except String Bool :=
  if getDailyCost t dateKey + estimated > t.daily_limit then
    .error "Daily limit exceeded"
  else if getMonthlyCost t monthKey + estimated > t.monthly_budget then
    .error "Monthly budget exceeded"
  else .ok true

/-- Whether a `check_budget` outcome is the budget-exceeded signal. -/
def budgetExceeded (r : Except String Bool) : Bool :=
  match r with
  | .error _ => true
  | .ok _ => false

/-- `CostTracker._cleanup_old_data`: drop date keys (length 10) strictly
below the 90-day cutoff key. -/
def cleanupOldData (data : List (String × PeriodSpend)) (cutoffKey : String) :
    List (String × PeriodSpend) :=
  data.filter fun kv => !(lexLtB kv.1.data cutoffKey.data && kv.1.length == 10)

/-- `CostTracker.record_call`: initialize the day and month entries if
missing, accumulate cost/tokens/calls into the day entry (including its
per-model sub-entry) and the month entry, then prune stale date keys. -/
def recordCall (t : CostTracker) (dateKey monthKey cutoffKey : String)
    (cost : ℚ) (tokens : ℕ) (model : String) : CostTracker :=
  let data0 := if (lookupPeriod t.cost_data dateKey).isNone then
      setPeriod t.cost_data dateKey emptyPeriod else t.cost_data
  let data1 := if (lookupPeriod data0 monthKey).isNone then
      setPeriod data0 monthKey emptyPeriod else data0
  let d := (lookupPeriod data1 dateKey).getD emptyPeriod
  let m0 := ((d.models.find? fun kv => kv.1 == model).map Prod.snd).getD ⟨0, 0, 0⟩
  let d' : PeriodSpend := ⟨d.cost + cost, d.tokens + tokens, d.calls + 1,
    setModel d.models model ⟨m0.cost + cost, m0.tokens + tokens, m0.calls + 1⟩⟩
  let data2 := setPeriod data1 dateKey d'
  let mo := (lookupPeriod data2 monthKey).getD emptyPeriod
  let mo' : PeriodSpend := ⟨mo.cost + cost, mo.tokens + tokens, mo.calls + 1, mo.models⟩
  let data3 := setPeriod data2 monthKey mo'
  { t with cost_data := cleanupOldData data3 cutoffKey }

/-- C2. `check_budget` signals budget-exceeded iff the day's spend plus
the estimate exceeds the daily limit or the month's spend plus the
estimate exceeds the monthly budget; it is a pure reader of the ledger
(it returns no new state).  With `daily_limit = 5`, an empty ledger and a
recorded call of cost 4.5, checking an estimate of 1.0 raises
budget-exceeded while an estimate of 0.4 does not. -/
theorem claimC2 :
    (∀ (t : CostTracker) (dateKey monthKey : String) (est : ℚ),
      budgetExceeded (checkBudget t dateKey monthKey est) = true ↔
        (getDailyCost t dateKey + est > t.daily_limit ∨
         getMonthlyCost t monthKey + est > t.monthly_budget)) ∧
    (budgetExceeded (checkBudget
        (recordCall ⟨5, 50, []⟩ "2026-10-12" "2026-10" "2026-07-14" (9/2) 1500 "m")
        "2026-10-12" "2026-10" 1) = true ∧
     budgetExceeded (checkBudget
        (recordCall ⟨5, 50, []⟩ "2026-10-12" "2026-10" "2026-07-14" (9/2) 1500 "m")
        "2026-10-12" "2026-10" (2/5)) = false) := by
  have hiff : ∀ (t : CostTracker) (dateKey monthKey : String) (est : ℚ),
      budgetExceeded (checkBudget t dateKey monthKey est) = true ↔
        (getDailyCost t dateKey + est > t.daily_limit ∨
         getMonthlyCost t monthKey + est > t.monthly_budget) := by
    intro t dk mk est
    unfold checkBudget budgetExceeded
    by_cases h1 : getDailyCost t dk + est > t.daily_limit
    · simp [h1]
    · by_cases h2 : getMonthlyCost t mk + est > t.monthly_budget
      · simp [h1, h2]
      · simp [h1, h2]
  have ht1 : (recordCall ⟨5, 50, []⟩ "2026-10-12" "2026-10" "2026-07-14"
      (9/2) 1500 "m").cost_data =
      [("2026-10-12", ⟨9/2, 1500, 1, [("m", ⟨9/2, 1500, 1⟩)]⟩),
       ("2026-10", ⟨9/2, 1500, 1, []⟩)] := by
    have hlex1 : lexLtB "2026-10-12".data "2026-07-14".data = false := by decide
    have hlex2 : lexLtB "2026-10".data "2026-07-14".data = false := by decide
    simp [recordCall, lookupPeriod, setPeriod, setModel, cleanupOldData, emptyPeriod,
      hlex1, hlex2]
  refine ⟨hiff, ?_, ?_⟩
  · rw [hiff]
    left
    show getDailyCost _ "2026-10-12" + 1 > (5 : ℚ)
    rw [getDailyCost, ht1]
    simp [lookupPeriod]
    norm_num
  · rw [Bool.eq_false_iff]
    intro hx
    have := (hiff _ _ _ _).mp hx
    rw [getDailyCost, getMonthlyCost, ht1] at this
    simp [lookupPeriod] at this
    have hdl : (recordCall ⟨5, 50, []⟩ "2026-10-12" "2026-10" "2026-07-14"
        (9/2) 1500 "m").daily_limit = 5 := rfl
    have hmb : (recordCall ⟨5, 50, []⟩ "2026-10-12" "2026-10" "2026-07-14"
        (9/2) 1500 "m").monthly_budget = 50 := rfl
    rw [hdl, hmb] at this
    rcases this with h | h <;> norm_num at h

/-! ## Timeliness scoring
(`QualityAssessmentProcessor._assess_timeliness`,
`PriorityRankingProcessor._calculate_timeliness`)

Both methods parse `entry.published` and score the age
`(now - pub_date).days`; they are modelled as functions of that parsed
age, with `none` standing for a missing or unparsable `published` field
(both methods then keep their base score 0.5). -/

/-- `min(max(score, 0.0), 1.0)`. -/
def clampQ (x : ℚ) : ℚ := min (max x 0) 1

/-- `QualityAssessmentProcessor._assess_timeliness`: age bands
`<7 → 1.0, <30 → 0.8, <90 → 0.6, <365 → 0.4`, else 0.2; base 0.5 when
`published` is missing or unparsable. -/
def qaTimeliness (age : Option Int) : ℚ :=
  clampQ (match age with
    | none => 1/2
    | some d =>
      if d < 7 then 1 else if d < 30 then 8/10 else if d < 90 then 6/10
      else if d < 365 then 4/10 else 2/10)

/-- `PriorityRankingProcessor._calculate_timeliness`: age bands
`<1 → 1.0, <7 → 0.9, <30 → 0.7, <90 → 0.5, <365 → 0.3`, else 0.1; 0.5
when `published` is missing or unparsable. -/
def prTimeliness (age : Option Int) : ℚ :=
  match age with
  | none => 1/2
  | some d =>
    if d < 1 then 1 else if d < 7 then 9/10 else if d < 30 then 7/10
    else if d < 90 then 5/10 else if d < 365 then 3/10 else 1/10

/-- Modelled from the spec (§4.3 wording, which C3 says the ranking stage
shares): age `<7d → 1.0, <30d → 0.8, <90d → 0.6, <365d → 0.4`, else 0.2;
0.5 when `published` is missing or unparsable. -/
def timelinessSpec43 (age : Option Int) : ℚ :=
  match age with
  | none => 1/2
  | some d =>
    if d < 7 then 1 else if d < 30 then 8/10 else if d < 90 then 6/10
    else if d < 365 then 4/10 else 1/5

/-- Modelled from the spec as amended: the ranking stage's own, finer age
bands `<1d → 1.0, <7d → 0.9, <30d → 0.7, <90d → 0.5, <365d → 0.3`, else
0.1; 0.5 when `published` is missing or unparsable. -/
def rankingTimelinessSpec (age : Option Int) : ℚ :=
  match age with
  | none => 1/2
  | some d =>
    if d < 1 then 1 else if d < 7 then 9/10 else if d < 30 then 7/10
    else if d < 90 then 1/2 else if d < 365 then 3/10 else 1/10

/-- The claim C3 as stated is false: at age 10 days the ranking stage's
timeliness is 0.7 while the quality stage's (the §4.3 bands) is 0.8. -/
theorem claimC3_counterexample :
    prTimeliness (some 10) = 7/10 ∧ qaTimeliness (some 10) = 8/10 ∧
    prTimeliness (some 10) ≠ qaTimeliness (some 10) := by
  refine ⟨by norm_num [prTimeliness], by norm_num [qaTimeliness, clampQ], ?_⟩
  norm_num [prTimeliness, qaTimeliness, clampQ]

/-- C3 (amended). The quality-assessment stage's timeliness follows the
§4.3 bands, but the priority-ranking stage does not share them: it uses
its own, finer bands
(`<1d → 1.0, <7d → 0.9, <30d → 0.7, <90d → 0.5, <365d → 0.3`, else 0.1),
which differ from the §4.3 bands at some ages (for instance age 10 days);
both stages use the 0.5 default for a missing or unparsable
`published`. -/
theorem claimC3 :
    ∀ age : Option Int,
      prTimeliness age = rankingTimelinessSpec age ∧
      qaTimeliness age = timelinessSpec43 age ∧
      prTimeliness none = qaTimeliness none := by
  intro age
  refine ⟨?_, ?_, by norm_num [prTimeliness, qaTimeliness, clampQ]⟩
  · cases age with
    | none => rfl
    | some d =>
      simp only [prTimeliness, rankingTimelinessSpec]
      norm_num
  · cases age with
    | none => norm_num [qaTimeliness, timelinessSpec43, clampQ]
    | some d =>
      simp only [qaTimeliness, timelinessSpec43, clampQ]
      by_cases h7 : d < 7
      · simp [h7]
      · by_cases h30 : d < 30
        · simp [h7, h30]; norm_num
        · by_cases h90 : d < 90
          · simp [h7, h30, h90]; norm_num
          · by_cases h365 : d < 365
            · simp [h7, h30, h90, h365]; norm_num
            · simp [h7, h30, h90, h365]; norm_num

/-! ## The processed-entry record (`src/processors/base_processor.py`)

`ProcessedEntry` extends `CollectedEntry` with every stage's output
fields.  `published` is modelled as the parsed age in days (see the
header); list-of-dict payloads that no claim constrains (`entities`,
`relations`, `structured_summary`, `translation`) are modelled by their
keys/names. -/

/-- `CollectedEntry` (src/collectors/base_collector.py). -/
structure CEntry where
  title : String
  link : String
  summary : String
  published : Option Int
  source_name : Option String
  source_type : Option String

/-- `ProcessedEntry`. -/
structure PEntry where
  title : String
  link : String
  summary : String
  published : Option Int
  source_name : Option String
  source_type : Option String
  topics : List String
  priority : String
  processing_method : String
  llm_cost : ℚ
  llm_tokens : ℕ
  cleaned_content : Option String
  normalized_text : Option String
  quality_scores : Option (List (String × ℚ))
  quality_grade : Option String
  overall_quality : ℚ
  is_semantic_duplicate : Bool
  duplicate_of : Option String
  similarity_score : Option ℚ
  verification_status : Option String
  verification_score : ℚ
  verification_warnings : List String
  entities : List String
  relations : List String
  key_points : List String
  structured_summary : Option (List (String × String))
  auto_tags : List String
  final_priority : String
  priority_score : ℚ
  ranking_reason : Option String
  summary_llm : Option String
  translation : Option (List (String × String))
  topics_llm : Option (List String)
  priority_llm : Option String

/-- `ProcessedEntry.from_collected`: lift a collected entry, all
processing fields at their defaults. -/
def liftCollected (c : CEntry) : PEntry where
  title := c.title
  link := c.link
  summary := c.summary
  published := c.published
  source_name := c.source_name
  source_type := c.source_type
  topics := []
  priority := "Low"
  processing_method := "keyword"
  llm_cost := 0
  llm_tokens := 0
  cleaned_content := none
  normalized_text := none
  quality_scores := none
  quality_grade := none
  overall_quality := 0
  is_semantic_duplicate := false
  duplicate_of := none
  similarity_score := none
  verification_status := none
  verification_score := 0
  verification_warnings := []
  entities := []
  relations := []
  key_points := []
  structured_summary := none
  auto_tags := []
  final_priority := "Low"
  priority_score := 0
  ranking_reason := none
  summary_llm := none
  translation := none
  topics_llm := none
  priority_llm := none

/-- Python's falsy-chaining `a or b` for an optional first operand
(`entry.cleaned_content or entry.summary`). -/
def contentOr (a : Option String) (b : String) : String :=
  match a with
  | some s => if s = "" then b else s
  | none => b

/-- `text.replace(pat, "")`: remove every (left-to-right, non-overlapping)
occurrence of a non-empty pattern. -/
def removeAllSub (pat : List Char) (l : List Char) : List Char :=
  match l with
  | [] => []
  | c :: rest =>
    if pat.length != 0 && startsWithL pat (c :: rest) then
      removeAllSub pat (rest.drop (pat.length - 1))
    else c :: removeAllSub pat rest
termination_by l.length
decreasing_by
  · simp only [List.length_cons, List.length_drop]
    omega
  · simp only [List.length_cons]
    omega

/-- `urlparse(link).netloc.lower().replace("www.", "")`, the domain string
the quality and verification stages test (the `domainOf` above models
`urlparse(...).netloc` for absolute URLs). -/
def linkDomain (url : String) : List Char :=
  removeAllSub "www.".data (lowerChars (domainOf url).data)

/-! ## Content cleaning stage
(`src/processors/content_cleaner_processor.py`)

The exact HTML sanitization (`clean_html`, with its stdlib entity
unescaping) and the sentence splitter (`extract_summary`) are explicit
non-goals of the spec ("this spec does not cover exact HTML-sanitization
heuristics") and no claim constrains their output; they enter the stage
model as function parameters, so every theorem below holds for every
instantiation of them — in particular for the code's. -/

/-- `truncate_text`: hard-truncate to `maxLength` characters, replacing
the tail with `"..."` when truncation happens. -/
def truncateText (s : String) (maxLength : ℕ) : String :=
  if s.length ≤ maxLength then s else ⟨s.data.take (maxLength - 3) ++ "...".data⟩

/-- `ContentCleanerProcessor.process`. -/
def contentCleanerProcess (cleanHtmlFn extractSummaryFn : String → String)
    (maxSummaryLength : ℕ) (e : PEntry) : Option PEntry :=
  let original := e.summary
  let cleaned := cleanHtmlFn original
  let normalized : String := ⟨normalizeChars cleaned.data⟩
  let summaryText :=
    if cleaned ≠ "" then truncateText (extractSummaryFn cleaned) maxSummaryLength else ""
  let e1 := { e with cleaned_content := some cleaned, normalized_text := some normalized }
  let e2 := if summaryText ≠ "" ∧ summaryText ≠ original then
      { e1 with summary := summaryText } else e1
  if e2.title = "" ∨ e2.link = "" then none else some e2

/-! ## Quality assessment stage
(`src/processors/quality_assessment_processor.py`) -/

/-- The configuration read by `QualityAssessmentProcessor.__init__`. -/
structure QualityCfg where
  min_quality_score : ℚ
  source_whitelist : List String
  source_blacklist : List String
  min_content_length : ℕ

/-- The fixed list of authoritative domains. -/
def authoritativeDomains : List String :=
  ["arxiv.org", "github.com", "openai.com", "anthropic.com", "deepmind.com",
   "huggingface.co", "paperswithcode.com"]

/-- `_assess_credibility`: base 0.5; a whitelisted domain sets 1.0, a
blacklisted domain then sets 0.0, an authoritative domain adds 0.2 capped
at 1.0; clamped. -/
def assessCredibility (cfg : QualityCfg) (e : PEntry) : ℚ :=
  let domain := linkDomain e.link
  let s1 : ℚ :=
    if cfg.source_whitelist.any (fun t => containsSub (lowerChars t.data) domain) then 1
    else 1/2
  let s2 : ℚ :=
    if cfg.source_blacklist.any (fun t => containsSub (lowerChars t.data) domain) then 0
    else s1
  let s3 : ℚ :=
    if authoritativeDomains.any (fun t => containsSub t.data domain) then min (s2 + 2/10) 1
    else s2
  clampQ s3

/-- `_assess_completeness`: a length-banded score blended 60/40 with the
fraction of {title > 5 chars, content > 20 chars, link present}. -/
def assessCompleteness (cfg : QualityCfg) (e : PEntry) : ℚ :=
  let content := contentOr e.cleaned_content e.summary
  let n := content.length
  let lengthScore : ℚ :=
    if n < cfg.min_content_length then 2/10
    else if n < 100 then 4/10
    else if n < 200 then 6/10
    else if n < 500 then 8/10
    else 1
  let elementCount : ℕ :=
    (if 5 < e.title.length then 1 else 0) +
    (if 20 < n then 1 else 0) +
    (if e.link ≠ "" then 1 else 0)
  clampQ (lengthScore * (6/10) + ((elementCount : ℚ) / 3) * (4/10))

/-- `_assess_relevance`: base 0.7, plus 0.2 (capped) when topics were
assigned. -/
def assessRelevance (e : PEntry) : ℚ :=
  clampQ (if e.topics ≠ [] then min (7/10 + 2/10) 1 else 7/10)

/-- Grade bands: `≥0.8 → A, ≥0.6 → B, ≥0.4 → C`, else D. -/
def qualityGradeOf (q : ℚ) : String :=
  if q ≥ 8/10 then "A" else if q ≥ 6/10 then "B" else if q ≥ 4/10 then "C" else "D"

/-- `QualityAssessmentProcessor.process`: the weighted overall score
(credibility 0.4, completeness 0.3, relevance 0.2, timeliness 0.1), the
grade, and the DROP below `min_quality_score`. -/
def qualityProcess (cfg : QualityCfg) (e : PEntry) : Option PEntry :=
  let credibility := assessCredibility cfg e
  let completeness := assessCompleteness cfg e
  let relevance := assessRelevance e
  let timeliness := qaTimeliness e.published
  let overall := credibility * (4/10) + completeness * (3/10) + relevance * (2/10) +
    timeliness * (1/10)
  let e' := { e with
    quality_scores := some [("credibility", credibility), ("completeness", completeness),
      ("relevance", relevance), ("timeliness", timeliness)],
    quality_grade := some (qualityGradeOf overall),
    overall_quality := overall }
  if overall < cfg.min_quality_score then none else some e'

/-! ## Semantic deduplication stage
(`src/processors/semantic_deduplicator_processor.py`)

The embedding model and the embedding computation live outside the spec's
core; their availability/success enter as booleans.  The shipped logic
retains no comparison corpus: when an embedding was computed it marks the
entry as not a duplicate. -/

/-- `SemanticDeduplicatorProcessor.process`. -/
def semanticDedupProcess (hasModel embedOk : Bool) (e : PEntry) : Option PEntry :=
  let content := contentOr e.normalized_text (contentOr e.cleaned_content e.summary)
  if content = "" ∨ content.length < 20 then some e
  else if hasModel = false then some e
  else if embedOk = false then some e
  else some { e with is_semantic_duplicate := false, similarity_score := none }

/-! ## Information verification stage
(`src/processors/information_verification_processor.py`) -/

/-- The configuration read by
`InformationVerificationProcessor.__init__`. -/
structure VerifyCfg where
  verify_source : Bool
  cross_verify : Bool
  fact_check_llm : Bool
  source_whitelist : List String

/-- The fixed suspicious-domain pattern list. -/
def suspiciousPatterns : List String :=
  [".tk", ".ml", ".ga", ".cf", ".gq", "bit.ly", "tinyurl"]

/-- `_verify_source`, score component: whitelisted domain short-circuits
to 1.0; a suspicious pattern sets 0.2; HTTPS adds 0.2 (capped at 1),
its absence subtracts 0.2 (floored at 0). -/
def verifySourceScore (wl : List String) (e : PEntry) : ℚ :=
  let domain := linkDomain e.link
  if wl.any (fun t => containsSub (lowerChars t.data) domain) then 1
  else
    let s1 : ℚ :=
      if suspiciousPatterns.any (fun p => containsSub p.data domain) then 2/10 else 1/2
    if startsWithL "https://".data e.link.data then min (s1 + 2/10) 1
    else max (s1 - 2/10) 0

/-- `_verify_source`, warnings component. -/
def verifySourceWarnings (wl : List String) (e : PEntry) : List String :=
  let domain := linkDomain e.link
  if wl.any (fun t => containsSub (lowerChars t.data) domain) then []
  else
    (match suspiciousPatterns.find? (fun p => containsSub p.data domain) with
     | some p => ["Suspicious domain pattern: " ++ p]
     | none => []) ++
    (if startsWithL "https://".data e.link.data then [] else ["Non-HTTPS URL"])

/-- Status bands: `≥0.7 → verified, ≥0.4 → unverified`, else
suspicious. -/
def verificationStatusOf (s : ℚ) : String :=
  if s ≥ 7/10 then "verified" else if s ≥ 4/10 then "unverified" else "suspicious"

/-- `_cross_verify`: the shipped stub returns the neutral 0.5. -/
def crossVerifyScore : ℚ := 1/2

/-- `_fact_check_llm`: the shipped stub returns `None`. -/
def factCheckLLM : Option ℚ := none

/-- The verification score computed by
`InformationVerificationProcessor.process`: progressive blends of the
base 0.5 with the source score (60/40), the cross-verification stub
(70/30) and the LLM fact-check stub (80/20, skipped because the stub
returns `None`). -/
def verificationScore (cfg : VerifyCfg) (e : PEntry) : ℚ :=
  let s0 : ℚ := 1/2
  let s1 := if cfg.verify_source then
      s0 * (6/10) + verifySourceScore cfg.source_whitelist e * (4/10) else s0
  let s2 := if cfg.cross_verify then s1 * (7/10) + crossVerifyScore * (3/10) else s1
  if cfg.fact_check_llm then
    (match factCheckLLM with
     | some f => s2 * (8/10) + f * (2/10)
     | none => s2)
  else s2

/-- `InformationVerificationProcessor.process`: compute the score and the
warnings, set the status bands, and DROP below 0.3. -/
def verificationProcess (cfg : VerifyCfg) (e : PEntry) : Option PEntry :=
  let s3 := verificationScore cfg e
  let w1 := if cfg.verify_source then verifySourceWarnings cfg.source_whitelist e else []
  let e' := { e with
    verification_status := some (verificationStatusOf s3),
    verification_score := s3,
    verification_warnings := w1 }
  if s3 < 3/10 then none else some e'

/-! ## Keyword stage on the processed entry

`KeywordProcessor.process` reads `title`, `summary` and `link` and writes
`topics` and `priority` (the algorithm modelled above as
`keywordProcess`).  In the shipped pipeline this processor's dict-based
interface makes it raise on `ProcessedEntry` input — which the pipeline
wrapper absorbs as a pass-through (`StageResult.err`); the stage algorithm
itself is modelled here, and the pipeline theorems below cover both
behaviors. -/

/-- The keyword stage as a pipeline stage. -/
def keywordStage (rules : KWRules) (e : PEntry) : Option PEntry :=
  let pr := keywordProcess rules ⟨e.title, e.summary, e.link⟩
  some { e with topics := pr.1, priority := pr.2 }

/-! ## Knowledge extraction stage
(`src/processors/knowledge_extraction_processor.py`)

The regex helpers (`_extract_entities`, `_extract_relations`,
`_extract_key_points`, `_generate_structured_summary`,
`_generate_auto_tags`) write only fields no claim constrains; they enter
the stage model as function parameters, so the theorems below hold for
every instantiation — in particular for the code's fixed pattern
lists. -/

/-- `KnowledgeExtractionProcessor.process`: content shorter than 20
characters passes through unchanged; otherwise the extraction fields are
filled in. -/
def knowledgeProcess (extractEnts extractRels extractKPs : Bool)
    (entitiesFn : String → List String)
    (relationsFn : String → List String → List String)
    (keyPointsFn : String → List String)
    (structuredSummaryFn : String → List (String × String))
    (autoTagsFn : PEntry → List String) (e : PEntry) : Option PEntry :=
  let content := contentOr e.cleaned_content e.summary
  if content = "" ∨ content.length < 20 then some e
  else
    let e1 := if extractEnts then { e with entities := entitiesFn content } else e
    let e2 := if extractRels then { e1 with relations := relationsFn content e1.entities }
      else e1
    let e3 := if extractKPs then { e2 with key_points := keyPointsFn content } else e2
    let e4 := { e3 with structured_summary := some (structuredSummaryFn content) }
    some { e4 with auto_tags := autoTagsFn e4 }

/-! ## Priority ranking stage
(`src/processors/priority_ranking_processor.py`) -/

/-- The configurable component weights. -/
structure RankWeights where
  quality : ℚ
  relevance : ℚ
  timeliness : ℚ
  source : ℚ

/-- `_calculate_priority_score`: weighted composite of the quality score
(0.5 when `overall_quality` is falsy), a topic-count relevance proxy, the
ranking timeliness bands, and the verification score (0.5 when falsy);
clamped to [0, 1]. -/
def calculatePriorityScore (w : RankWeights) (e : PEntry) : ℚ :=
  let qualityScore := if e.overall_quality = 0 then 1/2 else e.overall_quality
  let relevanceScore : ℚ :=
    if e.topics ≠ [] then min (1/2 + (e.topics.length : ℚ) * (15/100)) 1 else 1/2
  let timelinessScore := prTimeliness e.published
  let sourceScore := if e.verification_score = 0 then 1/2 else e.verification_score
  clampQ (qualityScore * w.quality + relevanceScore * w.relevance +
    timelinessScore * w.timeliness + sourceScore * w.source)

/-- Final tier bands: `≥0.7 → High, ≥0.4 → Medium`, else Low. -/
def finalPriorityOf (s : ℚ) : String :=
  if s ≥ 7/10 then "High" else if s ≥ 4/10 then "Medium" else "Low"

/-- `_generate_ranking_reason`.  The decimal rendering of the score in the
fallback text (`f"{score:.2f}"`) is a formatting detail taken as a
parameter. -/
def rankingReason (formatScore : ℚ → String) (e : PEntry) (final : String) (score : ℚ) :
    String :=
  let reasons :=
    (if e.overall_quality ≠ 0 ∧ e.overall_quality ≥ 7/10 then ["high quality"] else []) ++
    (if e.topics ≠ [] ∧ 2 ≤ e.topics.length then ["highly relevant"] else []) ++
    (if e.verification_status = some "verified" then ["verified source"] else []) ++
    (match e.published with
     | some d => if d < 7 then ["recent"] else []
     | none => [])
  if reasons ≠ [] then "Ranked " ++ final ++ " due to: " ++ String.intercalate ", " reasons
  else "Ranked " ++ final ++ " (score: " ++ formatScore score ++ ")"

/-- `PriorityRankingProcessor.process`: compute the score, the tier and
the reason, and backfill the legacy `priority` field when it is unset or
still "Low".  The source calls `_generate_ranking_reason` before assigning
`processed.final_priority`, so the reason text names the entry's previous
(stale, usually default "Low") `final_priority`, not the new tier. -/
def rankingProcess (w : RankWeights) (formatScore : ℚ → String) (e : PEntry) :
    Option PEntry :=
  let score := calculatePriorityScore w e
  let final := finalPriorityOf score
  let e1 := { e with
    final_priority := final, priority_score := score,
    ranking_reason := some (rankingReason formatScore e e.final_priority score) }
  some (if e1.priority = "" ∨ e1.priority = "Low" then { e1 with priority := final } else e1)

/-! ## LLM enrichment stage (`src/processors/llm_processor.py`)

The stage is modelled at the level of the fields it writes: the external
model calls (summary, translations, categorization) enter as optional
results (`none` = feature off, short content, budget-exceeded inside the
call, or a failed/unparsable response — all of which the stage swallows,
keeping the keyword results). -/

/-- `LLMProcessor.process`: disabled or budget-exceeded leaves the entry
untouched; otherwise each enabled feature that produced a result writes
its fields, and `processing_method` becomes "hybrid" (from "keyword") or
"llm" when any feature succeeded. -/
def llmProcess (enabled budgetOk : Bool) (sumRes : Option String)
    (transRes : Option (List (String × String)))
    (catRes : Option (List String × String)) (e : PEntry) : Option PEntry :=
  if enabled = false then some e
  else if budgetOk = false then some e
  else
    let e1 := match sumRes with
      | some s => { e with summary_llm := some s }
      | none => e
    let e2 := match transRes with
      | some tr => { e1 with translation := some tr }
      | none => e1
    let e3 := match catRes with
      | some c => { e2 with topics_llm := some c.1, priority_llm := some c.2 }
      | none => e2
    if sumRes.isSome || transRes.isSome || catRes.isSome then
      some { e3 with
        processing_method := if e3.processing_method = "keyword" then "hybrid" else "llm" }
    else some e3

/-! ## The composed pipeline (`main.py`)

`main.py` assembles, in order: content cleaning, quality assessment,
semantic deduplication (optional), information verification, keyword
classification, knowledge extraction, priority ranking, LLM enrichment
(optional). -/

/-- Everything the composed pipeline is parameterized by: stage
configurations and the external helpers discussed above. -/
structure PipelineCfg where
  cleanHtmlFn : String → String
  extractSummaryFn : String → String
  max_summary_length : ℕ
  quality : QualityCfg
  hasModel : Bool
  embedOk : Bool
  verification : VerifyCfg
  rules : KWRules
  extract_entities : Bool
  extract_relations : Bool
  extract_key_points : Bool
  entitiesFn : String → List String
  relationsFn : String → List String → List String
  keyPointsFn : String → List String
  structuredSummaryFn : String → List (String × String)
  autoTagsFn : PEntry → List String
  weights : RankWeights
  formatScore : ℚ → String
  llm_enabled : Bool
  budgetOk : Bool
  sumRes : Option String
  transRes : Option (List (String × String))
  catRes : Option (List String × String)

/-- Wrap a processor (`PEntry → Option PEntry`, `none` = DROP) as a
pipeline stage. -/
def toStage (f : PEntry → Option PEntry) : Stage PEntry :=
  fun e =>
    match f e with
    | some e' => StageResult.ok e'
    | none => StageResult.drop

/-- The ordered stage list of `main.py`. -/
def mimirStages (cfg : PipelineCfg) : List (Stage PEntry) :=
  [toStage (contentCleanerProcess cfg.cleanHtmlFn cfg.extractSummaryFn
      cfg.max_summary_length),
   toStage (qualityProcess cfg.quality),
   toStage (semanticDedupProcess cfg.hasModel cfg.embedOk),
   toStage (verificationProcess cfg.verification),
   toStage (keywordStage cfg.rules),
   toStage (knowledgeProcess cfg.extract_entities cfg.extract_relations
      cfg.extract_key_points cfg.entitiesFn cfg.relationsFn cfg.keyPointsFn
      cfg.structuredSummaryFn cfg.autoTagsFn),
   toStage (rankingProcess cfg.weights cfg.formatScore),
   toStage (llmProcess cfg.llm_enabled cfg.budgetOk cfg.sumRes cfg.transRes cfg.catRes)]

/-! ## Field-range invariants (claim C8) -/

/-- `priority` / `final_priority` is one of High, Medium, Low. -/
def PriorityOK (s : String) : Prop := s = "High" ∨ s = "Medium" ∨ s = "Low"

/-- `quality_grade`, when set, is one of A, B, C, D. -/
def GradeOK : Option String → Prop
  | none => True
  | some g => g = "A" ∨ g = "B" ∨ g = "C" ∨ g = "D"

/-- A score lies in `[0, 1]`. -/
def ScoreOK (q : ℚ) : Prop := 0 ≤ q ∧ q ≤ 1

/-- Every quality sub-score lies in `[0, 1]`. -/
def ScoresOK : Option (List (String × ℚ)) → Prop
  | none => True
  | some l => ∀ kv ∈ l, ScoreOK kv.2

/-- `similarity_score`, when set, lies in `[0, 1]`. -/
def SimScoreOK : Option ℚ → Prop
  | none => True
  | some q => ScoreOK q

/-- The full range invariant of claim C8 on a processed entry. -/
def EntryInv (e : PEntry) : Prop :=
  PriorityOK e.priority ∧ PriorityOK e.final_priority ∧ GradeOK e.quality_grade ∧
  ScoreOK e.overall_quality ∧ ScoreOK e.verification_score ∧ ScoreOK e.priority_score ∧
  SimScoreOK e.similarity_score ∧ ScoresOK e.quality_scores

theorem scoreOK_clampQ (x : ℚ) : ScoreOK (clampQ x) :=
  ⟨le_min (le_max_right x 0) zero_le_one, min_le_right _ _⟩

theorem scoreOK_qaTimeliness (age : Option Int) : ScoreOK (qaTimeliness age) :=
  scoreOK_clampQ _

theorem scoreOK_prTimeliness (age : Option Int) : ScoreOK (prTimeliness age) := by
  cases age with
  | none => exact ⟨by norm_num [prTimeliness], by norm_num [prTimeliness]⟩
  | some d =>
    simp only [prTimeliness]
    split_ifs <;> exact ⟨by norm_num, by norm_num⟩

theorem gradeOK_qualityGradeOf (q : ℚ) : GradeOK (some (qualityGradeOf q)) := by
  unfold qualityGradeOf GradeOK
  split_ifs <;> simp

theorem priorityOK_finalPriorityOf (s : ℚ) : PriorityOK (finalPriorityOf s) := by
  unfold finalPriorityOf PriorityOK
  split_ifs <;> simp

theorem priorityOK_guessPriority (rules : List (String × List String))
    (title summary : String) : PriorityOK (guessPriority rules title summary) := by
  unfold guessPriority PriorityOK
  split_ifs <;> simp

theorem scoreOK_verifySourceScore (wl : List String) (e : PEntry) :
    ScoreOK (verifySourceScore wl e) := by
  unfold verifySourceScore
  by_cases hwl : wl.any (fun t => containsSub (lowerChars t.data) (linkDomain e.link)) = true
  · rw [if_pos hwl]
    exact ⟨by norm_num, by norm_num⟩
  · rw [if_neg hwl]
    have hb : ∀ s1 : ℚ, 2/10 ≤ s1 → s1 ≤ 1/2 →
        ScoreOK (if startsWithL "https://".data e.link.data = true then min (s1 + 2/10) 1
          else max (s1 - 2/10) 0) := by
      intro s1 hlo hhi
      by_cases hh : startsWithL "https://".data e.link.data = true
      · rw [if_pos hh]
        exact ⟨le_min (by linarith) zero_le_one, min_le_right _ _⟩
      · rw [if_neg hh]
        exact ⟨le_max_right _ _, max_le (by linarith) zero_le_one⟩
    by_cases hs : suspiciousPatterns.any
        (fun p => containsSub p.data (linkDomain e.link)) = true
    · rw [if_pos hs]
      exact hb (2/10) (by norm_num) (by norm_num)
    · rw [if_neg hs]
      exact hb (1/2) (by norm_num) (by norm_num)

theorem scoreOK_verificationScore (cfg : VerifyCfg) (e : PEntry) :
    ScoreOK (verificationScore cfg e) := by
  obtain ⟨h0, h1⟩ := scoreOK_verifySourceScore cfg.source_whitelist e
  unfold verificationScore
  simp only [crossVerifyScore, factCheckLLM]
  split_ifs <;> constructor <;> linarith

theorem contentCleanerProcess_inv (f g : String → String) (n : ℕ) (e e' : PEntry)
    (he : EntryInv e) (h : contentCleanerProcess f g n e = some e') : EntryInv e' := by
  simp only [contentCleanerProcess] at h
  split_ifs at h <;>
    (simp only [Option.some.injEq] at h
     subst h
     exact he)

theorem qualityProcess_inv (cfg : QualityCfg) (e e' : PEntry) (he : EntryInv e)
    (h : qualityProcess cfg e = some e') : EntryInv e' := by
  simp only [qualityProcess] at h
  split_ifs at h
  simp only [Option.some.injEq] at h
  subst h
  obtain ⟨h1, h2, h3, h4, h5, h6, h7, h8⟩ := he
  have hc1 : ScoreOK (assessCredibility cfg e) := scoreOK_clampQ _
  have hc2 : ScoreOK (assessCompleteness cfg e) := scoreOK_clampQ _
  have hc3 : ScoreOK (assessRelevance e) := scoreOK_clampQ _
  have hc4 : ScoreOK (qaTimeliness e.published) := scoreOK_clampQ _
  obtain ⟨ha0, ha1⟩ := hc1
  obtain ⟨hb0, hb1⟩ := hc2
  obtain ⟨hr0, hr1⟩ := hc3
  obtain ⟨ht0, ht1⟩ := hc4
  refine ⟨h1, h2, gradeOK_qualityGradeOf _, ⟨by linarith, by linarith⟩, h5, h6,
    h7, ?_⟩
  intro kv hkv
  simp only [List.mem_cons, List.not_mem_nil, or_false] at hkv
  rcases hkv with rfl | rfl | rfl | rfl <;>
    first
      | exact ⟨ha0, ha1⟩
      | exact ⟨hb0, hb1⟩
      | exact ⟨hr0, hr1⟩
      | exact ⟨ht0, ht1⟩

theorem semanticDedupProcess_inv (hm ek : Bool) (e e' : PEntry) (he : EntryInv e)
    (h : semanticDedupProcess hm ek e = some e') : EntryInv e' := by
  simp only [semanticDedupProcess] at h
  split_ifs at h <;> simp only [Option.some.injEq] at h <;> subst h <;>
    first
      | exact he
      | (obtain ⟨h1, h2, h3, h4, h5, h6, h7, h8⟩ := he
         exact ⟨h1, h2, h3, h4, h5, h6, trivial, h8⟩)

theorem verificationProcess_inv (cfg : VerifyCfg) (e e' : PEntry) (he : EntryInv e)
    (h : verificationProcess cfg e = some e') : EntryInv e' := by
  simp only [verificationProcess] at h
  split_ifs at h <;>
    (simp only [Option.some.injEq] at h
     subst h
     obtain ⟨h1, h2, h3, h4, h5, h6, h7, h8⟩ := he
     exact ⟨h1, h2, h3, h4, scoreOK_verificationScore cfg e, h6, h7, h8⟩)

theorem keywordStage_inv (rules : KWRules) (e e' : PEntry) (he : EntryInv e)
    (h : keywordStage rules e = some e') : EntryInv e' := by
  simp only [keywordStage, Option.some.injEq] at h
  subst h
  obtain ⟨h1, h2, h3, h4, h5, h6, h7, h8⟩ := he
  exact ⟨priorityOK_guessPriority rules.priority e.title e.summary, h2, h3, h4, h5, h6,
    h7, h8⟩

theorem knowledgeProcess_inv (b1 b2 b3 : Bool) (f1 : String → List String)
    (f2 : String → List String → List String) (f3 : String → List String)
    (f4 : String → List (String × String)) (f5 : PEntry → List String) (e e' : PEntry)
    (he : EntryInv e)
    (h : knowledgeProcess b1 b2 b3 f1 f2 f3 f4 f5 e = some e') : EntryInv e' := by
  simp only [knowledgeProcess] at h
  split_ifs at h <;> simp only [Option.some.injEq] at h <;> subst h <;> exact he

theorem rankingProcess_inv (w : RankWeights) (fs : ℚ → String) (e e' : PEntry)
    (he : EntryInv e) (h : rankingProcess w fs e = some e') : EntryInv e' := by
  simp only [rankingProcess, Option.some.injEq] at h
  subst h
  obtain ⟨h1, h2, h3, h4, h5, h6, h7, h8⟩ := he
  split_ifs <;>
    first
      | exact ⟨priorityOK_finalPriorityOf _, priorityOK_finalPriorityOf _, h3, h4, h5,
          scoreOK_clampQ _, h7, h8⟩
      | exact ⟨h1, priorityOK_finalPriorityOf _, h3, h4, h5, scoreOK_clampQ _, h7, h8⟩

theorem llmProcess_inv (en bu : Bool) (sr : Option String)
    (tr : Option (List (String × String))) (cr : Option (List String × String))
    (e e' : PEntry) (he : EntryInv e)
    (h : llmProcess en bu sr tr cr e = some e') : EntryInv e' := by
  cases sr <;> cases tr <;> cases cr <;>
    simp only [llmProcess, Option.isSome_none, Option.isSome_some, Bool.or_self,
      Bool.or_true, Bool.true_or, Bool.or_false, Bool.false_or, if_true, if_false] at h <;>
    split_ifs at h <;>
    simp only [Option.some.injEq] at h <;>
    subst h <;>
    exact he

/-- An invariant preserved by every `ok` transition of every stage is
carried along the live state of the chain. -/
theorem foldl_stepStage_inv {α : Type} (P : α → Prop) :
    ∀ (stages : List (Stage α)),
      (∀ s ∈ stages, ∀ e e', P e → s e = StageResult.ok e' → P e') →
      ∀ (e e' : α), P e →
        stages.foldl (fun st s => stepStage s st) (PipeState.run e) = PipeState.run e' →
        P e' := by
  intro stages
  induction stages with
  | nil =>
    intro _ e e' he h
    rw [List.foldl_nil] at h
    injection h with h
    subst h
    exact he
  | cons s rest ih =>
    intro hstg e e' he h
    rw [List.foldl_cons] at h
    cases hse : s e with
    | ok e1 =>
      have h1 : stepStage s (PipeState.run e) = PipeState.run e1 := by
        simp [stepStage, hse]
      rw [h1] at h
      exact ih (fun t ht => hstg t (List.mem_cons_of_mem s ht)) e1 e'
        (hstg s (List.mem_cons_self s rest) e e1 he hse) h
    | drop =>
      have h1 : stepStage s (PipeState.run e) = PipeState.skip e := by
        simp [stepStage, hse]
      rw [h1, foldl_stepStage_skip] at h
      exact absurd h (by simp)
    | err =>
      have h1 : stepStage s (PipeState.run e) = PipeState.run e := by
        simp [stepStage, hse]
      rw [h1] at h
      exact ih (fun t ht => hstg t (List.mem_cons_of_mem s ht)) e e' he h

/-- Invariant preservation lifted to the whole pipeline run. -/
theorem pipelineRun_inv {α : Type} (P : α → Prop) (stages : List (Stage α))
    (hstg : ∀ s ∈ stages, ∀ e e', P e → s e = StageResult.ok e' → P e')
    (e : α) (he : P e) (r : α) (h : pipelineRun stages e = some r) : P r := by
  unfold pipelineRun at h
  cases hfold : stages.foldl (fun st s => stepStage s st) (PipeState.run e) with
  | run e1 =>
    rw [hfold, Option.some.injEq] at h
    subst h
    exact foldl_stepStage_inv P stages hstg e e1 he hfold
  | skip e1 =>
    rw [hfold] at h
    exact absurd h (by simp)

/-- An `ok` outcome of a wrapped processor is a `some` outcome of the
processor. -/
theorem toStage_ok {f : PEntry → Option PEntry} {e e' : PEntry}
    (h : toStage f e = StageResult.ok e') : f e = some e' := by
  unfold toStage at h
  cases hf : f e with
  | some x =>
    rw [hf] at h
    injection h with h
    rw [h]
  | none =>
    rw [hf] at h
    exact absurd h (by simp)

/-- A freshly lifted collected entry satisfies the range invariant. -/
theorem liftCollected_inv (c : CEntry) : EntryInv (liftCollected c) :=
  ⟨Or.inr (Or.inr rfl), Or.inr (Or.inr rfl), trivial, ⟨le_refl 0, zero_le_one⟩,
    ⟨le_refl 0, zero_le_one⟩, ⟨le_refl 0, zero_le_one⟩, trivial, trivial⟩

/-- C8. For every pipeline configuration: every stage of the composed
pipeline preserves the range invariant (priority and final_priority in
{High, Medium, Low}, quality_grade (when set) in {A, B, C, D}, every
score field in [0, 1]); and every entry that passes through the pipeline
— lifted from a collected entry and surviving all stages — satisfies it. -/
theorem claimC8 (cfg : PipelineCfg) :
    (∀ s ∈ mimirStages cfg, ∀ e e', EntryInv e → s e = StageResult.ok e' → EntryInv e') ∧
    (∀ (c : CEntry) (r : PEntry),
      pipelineRun (mimirStages cfg) (liftCollected c) = some r → EntryInv r) := by
  have hstg : ∀ s ∈ mimirStages cfg, ∀ e e', EntryInv e → s e = StageResult.ok e' →
      EntryInv e' := by
    intro s hs e e' he hok
    simp only [mimirStages, List.mem_cons, List.not_mem_nil, or_false] at hs
    rcases hs with rfl | rfl | rfl | rfl | rfl | rfl | rfl | rfl
    · exact contentCleanerProcess_inv _ _ _ e e' he (toStage_ok hok)
    · exact qualityProcess_inv _ e e' he (toStage_ok hok)
    · exact semanticDedupProcess_inv _ _ e e' he (toStage_ok hok)
    · exact verificationProcess_inv _ e e' he (toStage_ok hok)
    · exact keywordStage_inv _ e e' he (toStage_ok hok)
    · exact knowledgeProcess_inv _ _ _ _ _ _ _ _ e e' he (toStage_ok hok)
    · exact rankingProcess_inv _ _ e e' he (toStage_ok hok)
    · exact llmProcess_inv _ _ _ _ _ e e' he (toStage_ok hok)
  exact ⟨hstg, fun c r h =>
    pipelineRun_inv EntryInv (mimirStages cfg) hstg (liftCollected c)
      (liftCollected_inv c) r h⟩

/-- A concrete pipeline configuration for the claim instances: empty rule
set, no whitelists, default-like numeric settings, LLM and embedding
off. -/
def cfgW : PipelineCfg where
  cleanHtmlFn := fun _ => ""
  extractSummaryFn := fun s => s
  max_summary_length := 500
  quality := ⟨3/10, [], [], 50⟩
  hasModel := false
  embedOk := false
  verification := ⟨true, false, false, []⟩
  rules := ⟨[], []⟩
  extract_entities := true
  extract_relations := true
  extract_key_points := true
  entitiesFn := fun _ => []
  relationsFn := fun _ _ => []
  keyPointsFn := fun _ => []
  structuredSummaryFn := fun _ => []
  autoTagsFn := fun _ => []
  weights := ⟨4/10, 3/10, 2/10, 1/10⟩
  formatScore := fun _ => "0.00"
  llm_enabled := false
  budgetOk := true
  sumRes := none
  transRes := none
  catRes := none

/-- A concrete collected entry for the claim instances. -/
def cW : CEntry := ⟨"Test entry", "https://example.com/a", "", none, none, none⟩

/-- A concrete instance of C8: the keyword stage of the concrete pipeline,
applied to the lifted concrete entry, yields an entry that satisfies the
range invariant. -/
theorem claimC8_witness :
    EntryInv { liftCollected cW with
      topics := (keywordProcess cfgW.rules
        ⟨(liftCollected cW).title, (liftCollected cW).summary, (liftCollected cW).link⟩).1,
      priority := (keywordProcess cfgW.rules
        ⟨(liftCollected cW).title, (liftCollected cW).summary,
          (liftCollected cW).link⟩).2 } := by
  refine (claimC8 cfgW).1 (toStage (keywordStage cfgW.rules)) ?_ (liftCollected cW) _
    ?_ rfl
  · simp [mimirStages]
  · exact liftCollected_inv cW

/-- C9. Determinism/idempotence of the pipeline: the deterministic stages
are pure functions of the entry, the rules and the configuration (the
wall-clock enters only through the parsed age carried by the entry), so
re-running the pipeline with the same configuration on the same collected
entry yields identical `topics`, `priority` and `quality_grade`. -/
theorem claimC9 (cfg cfg' : PipelineCfg) (c c' : CEntry) (hcfg : cfg = cfg')
    (hc : c = c') :
    (pipelineRun (mimirStages cfg) (liftCollected c)).map
        (fun r => (r.topics, r.priority, r.quality_grade)) =
      (pipelineRun (mimirStages cfg') (liftCollected c')).map
        (fun r => (r.topics, r.priority, r.quality_grade)) := by
  subst hcfg
  subst hc
  rfl

/-- A concrete instance of C9: two runs of the concrete pipeline on the
concrete entry agree on topics, priority and quality grade. -/
theorem claimC9_witness :
    (pipelineRun (mimirStages cfgW) (liftCollected cW)).map
        (fun r => (r.topics, r.priority, r.quality_grade)) =
      (pipelineRun (mimirStages cfgW) (liftCollected cW)).map
        (fun r => (r.topics, r.priority, r.quality_grade)) :=
  claimC9 cfgW cfgW cW cW rfl rfl

/-- C10. In the shipped configuration (source verification on,
cross-verification and LLM fact-check off — and both are stubs anyway),
the verification stage never DROPs: its score is exactly
`0.5*0.6 + source_score*0.4` with the source score in [0, 1], hence at
least 0.3, so the `score < 0.3` DROP branch is unreachable and the stage
always returns an entry, whose `verification_score` is that blend. -/
theorem claimC10 (wl : List String) (e : PEntry) :
    verificationScore ⟨true, false, false, wl⟩ e =
      1/2 * (6/10) + verifySourceScore wl e * (4/10) ∧
    3/10 ≤ verificationScore ⟨true, false, false, wl⟩ e ∧
    ∃ e', verificationProcess ⟨true, false, false, wl⟩ e = some e' ∧
      e'.verification_score = verificationScore ⟨true, false, false, wl⟩ e := by
  have hsrc := scoreOK_verifySourceScore wl e
  have hval : verificationScore ⟨true, false, false, wl⟩ e =
      1/2 * (6/10) + verifySourceScore wl e * (4/10) := by
    simp [verificationScore]
  have hge : 3/10 ≤ verificationScore ⟨true, false, false, wl⟩ e := by
    rw [hval]
    obtain ⟨h0, _⟩ := hsrc
    linarith
  refine ⟨hval, hge, ?_⟩
  unfold verificationProcess
  rw [if_neg (by linarith)]
  exact ⟨_, rfl, rfl⟩
